import Mathlib

set_option maxRecDepth 40000

/-!
Verification of the payload-encryption core of the xpresspay SDK
(`src/xpresspay/encryption.py`): key derivation from the merchant secret,
compact-JSON serialization, PKCS#7 padding, triple-DES/ECB encryption and
Base64 framing.

The Python code is shallowly embedded: strings are Lean `String`
(lists of Unicode scalar values), byte strings are `List Nat` with every
element below 256, exceptions are `Except`, and the external library
primitives the code calls (`hashlib.md5`, `json.dumps`, `DES3`/ECB from
PyCryptodome, `base64.b64encode`) are implemented here in full so that the
embedding is executable end to end.
-/

namespace XPay

/-! ## Bytes and UTF-8

`str.encode("utf-8")` in Python; standard UTF-8 for Unicode scalar values
(Lean `Char` is exactly a Unicode scalar value). -/

/-- UTF-8 encoding of a single character, as a list of byte values. -/
def utf8Char (c : Char) : List Nat :=
  let n := c.toNat
  if n < 128 then [n]
  else if n < 2048 then [192 + n / 64, 128 + n % 64]
  else if n < 65536 then [224 + n / 4096, 128 + (n / 64) % 64, 128 + n % 64]
  else [240 + n / 262144, 128 + (n / 4096) % 64, 128 + (n / 64) % 64, 128 + n % 64]

/-- UTF-8 encoding of a character list (`s.encode("utf-8")` on the chars of `s`). -/
def utf8Encode : List Char → List Nat
  | [] => []
  | c :: cs => utf8Char c ++ utf8Encode cs

/-! ## MD5 (`hashlib.md5`)

Full MD5 per RFC 1321, on byte lists, with 32-bit words as `Nat` reduced
modulo `2 ^ 32`. -/

/-- Reduce to a 32-bit word. -/
def w32 (x : Nat) : Nat := x % 4294967296

/-- 32-bit left rotation (argument assumed below `2 ^ 32`). -/
def rotl32 (x n : Nat) : Nat := w32 (x <<< n) ||| (x >>> (32 - n))

/-- Little-endian 32-bit word from four bytes. -/
def leWord (a b c d : Nat) : Nat := a + 256 * b + 65536 * c + 16777216 * d

/-- Little-endian byte decomposition of a 32-bit word. -/
def le4 (n : Nat) : List Nat :=
  [n % 256, n / 256 % 256, n / 65536 % 256, n / 16777216 % 256]

/-- Little-endian byte decomposition of a 64-bit length field. -/
def le8 (n : Nat) : List Nat :=
  [n % 256, n / 256 % 256, n / 65536 % 256, n / 16777216 % 256,
   n / 4294967296 % 256, n / 1099511627776 % 256,
   n / 281474976710656 % 256, n / 72057594037927936 % 256]

/-- Group a byte list into little-endian 32-bit words (length must be a
multiple of 4; a ragged tail is dropped). -/
def bytesToWordsLE : List Nat → List Nat
  | a :: b :: c :: d :: rest => leWord a b c d :: bytesToWordsLE rest
  | _ => []

/-- Group a word list into 16-word blocks (length must be a multiple of 16;
a ragged tail is dropped). -/
def chunk16 : List Nat → List (List Nat)
  | w0 :: w1 :: w2 :: w3 :: w4 :: w5 :: w6 :: w7 ::
    w8 :: w9 :: w10 :: w11 :: w12 :: w13 :: w14 :: w15 :: rest =>
      [w0, w1, w2, w3, w4, w5, w6, w7, w8, w9, w10, w11, w12, w13, w14, w15]
        :: chunk16 rest
  | _ => []

/-- MD5 message padding: a `0x80` byte, zeros to 56 mod 64, then the
original bit length as a little-endian 64-bit field. -/
def md5Pad (msg : List Nat) : List Nat :=
  msg ++ [128] ++ List.replicate ((120 - (msg.length + 1) % 64) % 64) 0
      ++ le8 (w32 (msg.length) * 8 % 18446744073709551616)

/-- The 64 MD5 sine-derived round constants (RFC 1321 table T). -/
def md5K : List Nat :=
  [3614090360, 3905402710, 606105819, 3250441966,
   4118548399, 1200080426, 2821735955, 4249261313,
   1770035416, 2336552879, 4294925233, 2304563134,
   1804603682, 4254626195, 2792965006, 1236535329,
   4129170786, 3225465664, 643717713, 3921069994,
   3593408605, 38016083, 3634488961, 3889429448,
   568446438, 3275163606, 4107603335, 1163531501,
   2850285829, 4243563512, 1735328473, 2368359562,
   4294588738, 2272392833, 1839030562, 4259657740,
   2763975236, 1272893353, 4139469664, 3200236656,
   681279174, 3936430074, 3572445317, 76029189,
   3654602809, 3873151461, 530742520, 3299628645,
   4096336452, 1126891415, 2878612391, 4237533241,
   1700485571, 2399980690, 4293915773, 2240044497,
   1873313359, 4264355552, 2734768916, 1309151649,
   4149444226, 3174756917, 718787259, 3951481745]

/-- The 64 MD5 per-round rotation amounts. -/
def md5S : List Nat :=
  [7, 12, 17, 22, 7, 12, 17, 22, 7, 12, 17, 22, 7, 12, 17, 22,
   5, 9, 14, 20, 5, 9, 14, 20, 5, 9, 14, 20, 5, 9, 14, 20,
   4, 11, 16, 23, 4, 11, 16, 23, 4, 11, 16, 23, 4, 11, 16, 23,
   6, 10, 15, 21, 6, 10, 15, 21, 6, 10, 15, 21, 6, 10, 15, 21]

/-- MD5 round mixing function, selected by round index `i`. -/
def md5F (i b c d : Nat) : Nat :=
  if i < 16 then (b &&& c) ||| ((b ^^^ 4294967295) &&& d)
  else if i < 32 then (b &&& d) ||| (c &&& (d ^^^ 4294967295))
  else if i < 48 then b ^^^ c ^^^ d
  else c ^^^ (b ||| (d ^^^ 4294967295))

/-- MD5 message-word index for round `i`. -/
def md5G (i : Nat) : Nat :=
  if i < 16 then i
  else if i < 32 then (5 * i + 1) % 16
  else if i < 48 then (3 * i + 5) % 16
  else (7 * i) % 16

/-- One MD5 round on the state `(a, b, c, d)` with message block `M`. -/
def md5Step (M : List Nat) (st : Nat × Nat × Nat × Nat) (i : Nat) :
    Nat × Nat × Nat × Nat :=
  let (a, b, c, d) := st
  let f := w32 (md5F i b c d + a + md5K.getD i 0 + M.getD (md5G i) 0)
  (d, w32 (b + rotl32 f (md5S.getD i 0)), b, c)

/-- Process one 16-word block: 64 rounds, then add the block result to the
incoming state, word-wise mod `2 ^ 32`. -/
def md5Block (st : Nat × Nat × Nat × Nat) (M : List Nat) :
    Nat × Nat × Nat × Nat :=
  let r := (List.range 64).foldl (md5Step M) st
  (w32 (st.1 + r.1), w32 (st.2.1 + r.2.1), w32 (st.2.2.1 + r.2.2.1),
   w32 (st.2.2.2 + r.2.2.2))

/-- MD5 digest of a byte list: 16 bytes. -/
def md5Bytes (msg : List Nat) : List Nat :=
  let blocks := chunk16 (bytesToWordsLE (md5Pad msg))
  let r := blocks.foldl md5Block (1732584193, 4023233417, 2562383102, 271733878)
  le4 r.1 ++ le4 r.2.1 ++ le4 r.2.2.1 ++ le4 r.2.2.2

/-- Lowercase hexadecimal digit for a value below 16. -/
def hexChar (n : Nat) : Char :=
  if n < 10 then Char.ofNat (48 + n) else Char.ofNat (87 + n)

/-- Two lowercase hex characters for one byte. -/
def byteHex (b : Nat) : List Char := [hexChar (b / 16), hexChar (b % 16)]

/-- Lowercase hex rendering of a byte list. -/
def bytesHex : List Nat → List Char
  | [] => []
  | b :: bs => byteHex b ++ bytesHex bs

/-- `hashlib.md5(bytes).hexdigest()` as a character list: 32 lowercase hex
characters. -/
def md5HexChars (msg : List Nat) : List Char := bytesHex (md5Bytes msg)

/-! ## Key derivation (`_derive_key`) -/

/-- The single exception type of the component
(`xpresspay.exceptions.EncryptionError`), carrying its message. -/
structure EncryptionError where
  message : String
deriving DecidableEq

/-- `secret_key.replace("XPSECK-", "")`: remove every occurrence of the
literal substring `XPSECK-`, scanning left to right (Python `str.replace`
specialized to the constant pattern `_PREFIX` used in the source). -/
def stripSecret : List Char → List Char
  | 'X' :: 'P' :: 'S' :: 'E' :: 'C' :: 'K' :: '-' :: rest => stripSecret rest
  | c :: rest => c :: stripSecret rest
  | [] => []

/-- `_derive_key` from `src/xpresspay/encryption.py`: reject an empty
secret; strip `XPSECK-`; reject when fewer than 12 characters remain;
otherwise return the UTF-8 bytes of the first 12 stripped characters
followed by the last 12 characters of the lowercase hex MD5 digest of the
full original secret. -/
def deriveKey (secret_key : String) : Except EncryptionError (List Nat) :=
  if secret_key = "" then
    .error ⟨"Secret key must not be empty."⟩
  else
    let stripped := stripSecret secret_key.data
    if stripped.length < 12 then
      .error ⟨"Secret key is too short to derive an encryption key. " ++
        "Ensure you are using the full key from your Xpresspay dashboard."⟩
    else
      let part_a := stripped.take 12
      let md5_hex := md5HexChars (utf8Encode secret_key.data)
      let part_b := md5_hex.drop (md5_hex.length - 12)
      .ok (utf8Encode (part_a ++ part_b))

/-! ## Python values and `json.dumps`

The payload argument of `encrypt_payload` is a Python `dict[str, Any]`.
`PyVal` models the JSON-compatible Python values plus `objref`, an opaque
non-serializable object (carrying its type name), which makes the
serialization failure of `json.dumps` representable.  Lists and dicts are
mutual inductives so that the serializer is structurally recursive and
kernel-reducible. -/

mutual
inductive PyVal where
  | none : PyVal
  | bool (b : Bool) : PyVal
  | int (n : Int) : PyVal
  | str (s : String) : PyVal
  | list (xs : PyList) : PyVal
  | dict (kvs : PyDict) : PyVal
  | objref (tyname : String) : PyVal
deriving DecidableEq
inductive PyList where
  | nil : PyList
  | cons (v : PyVal) (tl : PyList) : PyList
deriving DecidableEq
inductive PyDict where
  | nil : PyDict
  | cons (k : String) (v : PyVal) (tl : PyDict) : PyDict
deriving DecidableEq
end

/-- Four lowercase hex characters of a value below 65536 (for `\uXXXX`). -/
def hex4 (n : Nat) : List Char :=
  [hexChar (n / 4096 % 16), hexChar (n / 256 % 16),
   hexChar (n / 16 % 16), hexChar (n % 16)]

/-- JSON string-character escaping of `json.dumps` with the default
`ensure_ascii=True` (CPython `encode_basestring_ascii`): backslash, quote
and the five short escapes; all other characters outside `0x20..0x7e`
become `\uXXXX` (a surrogate pair for astral characters); the rest are
kept literally. -/
def escapeChar (c : Char) : List Char :=
  let n := c.toNat
  if c = '\\' then ['\\', '\\']
  else if c = '"' then ['\\', '"']
  else if n = 8 then ['\\', 'b']
  else if n = 9 then ['\\', 't']
  else if n = 10 then ['\\', 'n']
  else if n = 12 then ['\\', 'f']
  else if n = 13 then ['\\', 'r']
  else if 32 ≤ n ∧ n ≤ 126 then [c]
  else if n < 65536 then '\\' :: 'u' :: hex4 n
  else ('\\' :: 'u' :: hex4 (55296 + (n - 65536) / 1024)) ++
       ('\\' :: 'u' :: hex4 (56320 + (n - 65536) % 1024))

/-- Escape every character of a string body. -/
def escChars : List Char → List Char
  | [] => []
  | c :: cs => escapeChar c ++ escChars cs

/-- A JSON string literal: quote, escaped body, quote. -/
def serStr (s : String) : String :=
  "\"" ++ String.mk (escChars s.data) ++ "\""

/-- Decimal digits of a natural number, most significant first
(fuel-based, mirroring the structure of `Nat.toDigits`). -/
def natDigitsAux : Nat → Nat → List Char → List Char
  | 0, _, acc => acc
  | fuel + 1, n, acc =>
    let d := hexChar (n % 10)
    if n / 10 = 0 then d :: acc else natDigitsAux fuel (n / 10) (d :: acc)

/-- Decimal representation of a natural number. -/
def natRepr (n : Nat) : List Char := natDigitsAux (n + 1) n []

/-- Python `repr` of an integer: optional minus sign, then digits. -/
def intRepr : Int → List Char
  | .ofNat m => natRepr m
  | .negSucc m => '-' :: natRepr (m + 1)

/-! `serVal`, `serList` and `serDict` together model
`json.dumps(data, separators=(",", ":"))`: compact separators, default
`ensure_ascii=True`, insertion-order keys; a non-serializable object
yields the TypeError message raised by the CPython encoder. -/

mutual
/-- Serialize one Python value to compact JSON text. -/
def serVal : PyVal → Except String String
  | .none => .ok "null"
  | .bool true => .ok "true"
  | .bool false => .ok "false"
  | .int n => .ok (String.mk (intRepr n))
  | .str s => .ok (serStr s)
  | .list xs =>
      match serList xs with
      | .error e => .error e
      | .ok body => .ok ("[" ++ body ++ "]")
  | .dict kvs =>
      match serDict kvs with
      | .error e => .error e
      | .ok body => .ok ("\x7b" ++ body ++ "\x7d")
  | .objref ty => .error ("Object of type " ++ ty ++ " is not JSON serializable")
/-- Serialize the comma-separated items of a JSON array. -/
def serList : PyList → Except String String
  | .nil => .ok ""
  | .cons v .nil => serVal v
  | .cons v (.cons w tl) =>
      match serVal v, serList (.cons w tl) with
      | .error e, _ => .error e
      | .ok _, .error e => .error e
      | .ok a, .ok b => .ok (a ++ "," ++ b)
/-- Serialize the comma-separated entries of a JSON object. -/
def serDict : PyDict → Except String String
  | .nil => .ok ""
  | .cons k v .nil =>
      match serVal v with
      | .error e => .error e
      | .ok a => .ok (serStr k ++ ":" ++ a)
  | .cons k v (.cons k2 w tl) =>
      match serVal v, serDict (.cons k2 w tl) with
      | .error e, _ => .error e
      | .ok _, .error e => .error e
      | .ok a, .ok b => .ok (serStr k ++ ":" ++ a ++ "," ++ b)
end

/-- `json.dumps(data, separators=(",", ":"))` on a payload value. -/
def pyJsonDumps (data : PyVal) : Except String String := serVal data

/-! ## Base64 (`base64.b64encode`)

Standard alphabet, with `=` padding; and the corresponding decoder used to
state round-trip properties. -/

/-- The 64 characters of the standard Base64 alphabet. -/
def b64Alphabet : List Char :=
  "ABCDEFGHIJKLMNOPQRSTUVWXYZabcdefghijklmnopqrstuvwxyz0123456789+/".data

/-- Character for a 6-bit value. -/
def b64c (n : Nat) : Char := b64Alphabet.getD n 'A'

/-- 6-bit value of a Base64 character (its index in the alphabet). -/
def b64v (c : Char) : Nat := b64Alphabet.indexOf c

/-- `base64.b64encode`: bytes to Base64 text, 3 input bytes per 4 output
characters, with `=` padding on a ragged final group. -/
def b64EncodeChars : List Nat → List Char
  | [] => []
  | [a] => [b64c (a / 4), b64c (a % 4 * 16), '=', '=']
  | [a, b] => [b64c (a / 4), b64c (a % 4 * 16 + b / 16), b64c (b % 16 * 4), '=']
  | [a, b, c] =>
      [b64c (a / 4), b64c (a % 4 * 16 + b / 16), b64c (b % 16 * 4 + c / 64),
       b64c (c % 64)]
  | a :: b :: c :: rest =>
      b64c (a / 4) :: b64c (a % 4 * 16 + b / 16) :: b64c (b % 16 * 4 + c / 64) ::
        b64c (c % 64) :: b64EncodeChars rest

/-- Base64 decoding (for the round-trip statements): 4 characters per
group; a trailing `=` in position 3 or 4 of a group marks a short final
group of one or two bytes. -/
def b64DecodeChars : List Char → List Nat
  | c1 :: c2 :: c3 :: c4 :: rest =>
      if c3 = '=' then [b64v c1 * 4 + b64v c2 / 16]
      else if c4 = '=' then
        [b64v c1 * 4 + b64v c2 / 16, b64v c2 % 16 * 16 + b64v c3 / 4]
      else
        (b64v c1 * 4 + b64v c2 / 16) :: (b64v c2 % 16 * 16 + b64v c3 / 4) ::
          (b64v c3 % 4 * 64 + b64v c4) :: b64DecodeChars rest
  | _ => []

/-! ## DES and triple DES in ECB mode (PyCryptodome `DES3`, `MODE_ECB`)

Full FIPS 46-3 DES on blocks represented as bit lists (`List Bool`,
most-significant bit of the first byte first), and the
encrypt-decrypt-encrypt triple-DES composition with a 24-byte key split
into three independent single-DES keys (keying option 1). -/

/-- DES initial permutation IP (FIPS 46-3, 1-based source positions). -/
def desIP : List Nat :=
  [58, 50, 42, 34, 26, 18, 10, 2, 60, 52, 44, 36, 28, 20, 12, 4,
   62, 54, 46, 38, 30, 22, 14, 6, 64, 56, 48, 40, 32, 24, 16, 8,
   57, 49, 41, 33, 25, 17, 9, 1, 59, 51, 43, 35, 27, 19, 11, 3,
   61, 53, 45, 37, 29, 21, 13, 5, 63, 55, 47, 39, 31, 23, 15, 7]

/-- DES final permutation, the inverse of IP. -/
def desFP : List Nat :=
  [40, 8, 48, 16, 56, 24, 64, 32, 39, 7, 47, 15, 55, 23, 63, 31,
   38, 6, 46, 14, 54, 22, 62, 30, 37, 5, 45, 13, 53, 21, 61, 29,
   36, 4, 44, 12, 52, 20, 60, 28, 35, 3, 43, 11, 51, 19, 59, 27,
   34, 2, 42, 10, 50, 18, 58, 26, 33, 1, 41, 9, 49, 17, 57, 25]

/-- DES expansion table E (32 bits to 48 bits). -/
def desE : List Nat :=
  [32, 1, 2, 3, 4, 5, 4, 5, 6, 7, 8, 9, 8, 9, 10, 11,
   12, 13, 12, 13, 14, 15, 16, 17, 16, 17, 18, 19, 20, 21, 20, 21,
   22, 23, 24, 25, 24, 25, 26, 27, 28, 29, 28, 29, 30, 31, 32, 1]

/-- DES permutation P applied to the S-box output. -/
def desP : List Nat :=
  [16, 7, 20, 21, 29, 12, 28, 17, 1, 15, 23, 26, 5, 18, 31, 10,
   2, 8, 24, 14, 32, 27, 3, 9, 19, 13, 30, 6, 22, 11, 4, 25]

/-- DES key-schedule permuted choice 1 (64 key bits to 56). -/
def desPC1 : List Nat :=
  [57, 49, 41, 33, 25, 17, 9, 1, 58, 50, 42, 34, 26, 18, 10, 2,
   59, 51, 43, 35, 27, 19, 11, 3, 60, 52, 44, 36, 63, 55, 47, 39,
   31, 23, 15, 7, 62, 54, 46, 38, 30, 22, 14, 6, 61, 53, 45, 37,
   29, 21, 13, 5, 28, 20, 12, 4]

/-- DES key-schedule permuted choice 2 (56 bits to 48). -/
def desPC2 : List Nat :=
  [14, 17, 11, 24, 1, 5, 3, 28, 15, 6, 21, 10, 23, 19, 12, 4,
   26, 8, 16, 7, 27, 20, 13, 2, 41, 52, 31, 37, 47, 55, 30, 40,
   51, 45, 33, 48, 44, 49, 39, 56, 34, 53, 46, 42, 50, 36, 29, 32]

/-- DES per-round left-rotation amounts of the key halves. -/
def desShifts : List Nat :=
  [1, 1, 2, 2, 2, 2, 2, 2, 1, 2, 2, 2, 2, 2, 2, 1]

/-- DES S-box 1, flattened row-major (4 rows of 16 entries). -/
def desS1 : List Nat :=
  [14, 4, 13, 1, 2, 15, 11, 8, 3, 10, 6, 12, 5, 9, 0, 7,
   0, 15, 7, 4, 14, 2, 13, 1, 10, 6, 12, 11, 9, 5, 3, 8,
   4, 1, 14, 8, 13, 6, 2, 11, 15, 12, 9, 7, 3, 10, 5, 0,
   15, 12, 8, 2, 4, 9, 1, 7, 5, 11, 3, 14, 10, 0, 6, 13]

/-- DES S-box 2, flattened row-major (4 rows of 16 entries). -/
def desS2 : List Nat :=
  [15, 1, 8, 14, 6, 11, 3, 4, 9, 7, 2, 13, 12, 0, 5, 10,
   3, 13, 4, 7, 15, 2, 8, 14, 12, 0, 1, 10, 6, 9, 11, 5,
   0, 14, 7, 11, 10, 4, 13, 1, 5, 8, 12, 6, 9, 3, 2, 15,
   13, 8, 10, 1, 3, 15, 4, 2, 11, 6, 7, 12, 0, 5, 14, 9]

/-- DES S-box 3, flattened row-major (4 rows of 16 entries). -/
def desS3 : List Nat :=
  [10, 0, 9, 14, 6, 3, 15, 5, 1, 13, 12, 7, 11, 4, 2, 8,
   13, 7, 0, 9, 3, 4, 6, 10, 2, 8, 5, 14, 12, 11, 15, 1,
   13, 6, 4, 9, 8, 15, 3, 0, 11, 1, 2, 12, 5, 10, 14, 7,
   1, 10, 13, 0, 6, 9, 8, 7, 4, 15, 14, 3, 11, 5, 2, 12]

/-- DES S-box 4, flattened row-major (4 rows of 16 entries). -/
def desS4 : List Nat :=
  [7, 13, 14, 3, 0, 6, 9, 10, 1, 2, 8, 5, 11, 12, 4, 15,
   13, 8, 11, 5, 6, 15, 0, 3, 4, 7, 2, 12, 1, 10, 14, 9,
   10, 6, 9, 0, 12, 11, 7, 13, 15, 1, 3, 14, 5, 2, 8, 4,
   3, 15, 0, 6, 10, 1, 13, 8, 9, 4, 5, 11, 12, 7, 2, 14]

/-- DES S-box 5, flattened row-major (4 rows of 16 entries). -/
def desS5 : List Nat :=
  [2, 12, 4, 1, 7, 10, 11, 6, 8, 5, 3, 15, 13, 0, 14, 9,
   14, 11, 2, 12, 4, 7, 13, 1, 5, 0, 15, 10, 3, 9, 8, 6,
   4, 2, 1, 11, 10, 13, 7, 8, 15, 9, 12, 5, 6, 3, 0, 14,
   11, 8, 12, 7, 1, 14, 2, 13, 6, 15, 0, 9, 10, 4, 5, 3]

/-- DES S-box 6, flattened row-major (4 rows of 16 entries). -/
def desS6 : List Nat :=
  [12, 1, 10, 15, 9, 2, 6, 8, 0, 13, 3, 4, 14, 7, 5, 11,
   10, 15, 4, 2, 7, 12, 9, 5, 6, 1, 13, 14, 0, 11, 3, 8,
   9, 14, 15, 5, 2, 8, 12, 3, 7, 0, 4, 10, 1, 13, 11, 6,
   4, 3, 2, 12, 9, 5, 15, 10, 11, 14, 1, 7, 6, 0, 8, 13]

/-- DES S-box 7, flattened row-major (4 rows of 16 entries). -/
def desS7 : List Nat :=
  [4, 11, 2, 14, 15, 0, 8, 13, 3, 12, 9, 7, 5, 10, 6, 1,
   13, 0, 11, 7, 4, 9, 1, 10, 14, 3, 5, 12, 2, 15, 8, 6,
   1, 4, 11, 13, 12, 3, 7, 14, 10, 15, 6, 8, 0, 5, 9, 2,
   6, 11, 13, 8, 1, 4, 10, 7, 9, 5, 0, 15, 14, 2, 3, 12]

/-- DES S-box 8, flattened row-major (4 rows of 16 entries). -/
def desS8 : List Nat :=
  [13, 2, 8, 4, 6, 15, 11, 1, 10, 9, 3, 14, 5, 0, 12, 7,
   1, 15, 13, 8, 10, 3, 7, 4, 12, 5, 6, 11, 0, 14, 9, 2,
   7, 11, 4, 1, 9, 12, 14, 2, 0, 6, 10, 13, 15, 3, 5, 8,
   2, 1, 14, 7, 4, 10, 8, 13, 15, 12, 9, 0, 3, 5, 6, 11]


/-- The eight S-boxes in order. -/
def desSBoxes : List (List Nat) :=
  [desS1, desS2, desS3, desS4, desS5, desS6, desS7, desS8]

/-- The 8 bits of one byte, most significant first. -/
def byteBits (b : Nat) : List Bool :=
  [decide (b / 128 % 2 = 1), decide (b / 64 % 2 = 1), decide (b / 32 % 2 = 1),
   decide (b / 16 % 2 = 1), decide (b / 8 % 2 = 1), decide (b / 4 % 2 = 1),
   decide (b / 2 % 2 = 1), decide (b % 2 = 1)]

/-- Bytes to bits, most significant bit of each byte first. -/
def bytesToBits : List Nat → List Bool
  | [] => []
  | b :: bs => byteBits b ++ bytesToBits bs

/-- One byte from 8 bits, most significant first. -/
def byteFromBits (b7 b6 b5 b4 b3 b2 b1 b0 : Bool) : Nat :=
  (cond b7 128 0) + (cond b6 64 0) + (cond b5 32 0) + (cond b4 16 0) +
  (cond b3 8 0) + (cond b2 4 0) + (cond b1 2 0) + (cond b0 1 0)

/-- Bits to bytes, 8 at a time (a ragged tail is dropped). -/
def bitsToBytes : List Bool → List Nat
  | b7 :: b6 :: b5 :: b4 :: b3 :: b2 :: b1 :: b0 :: rest =>
      byteFromBits b7 b6 b5 b4 b3 b2 b1 b0 :: bitsToBytes rest
  | _ => []

/-- Apply a 1-based permutation/selection table to a bit list. -/
def applyPerm (table : List Nat) (bits : List Bool) : List Bool :=
  table.map (fun i => bits.getD (i - 1) false)

/-- Pointwise exclusive or of two bit lists. -/
def xorBits (a b : List Bool) : List Bool := List.zipWith xor a b

/-- The 4 output bits of one S-box applied to 6 input bits: bits 1 and 6
select the row, bits 2-5 the column. -/
def sboxBits (box : List Nat) (b1 b2 b3 b4 b5 b6 : Bool) : List Bool :=
  let row := (cond b1 2 0) + (cond b6 1 0)
  let col := (cond b2 8 0) + (cond b3 4 0) + (cond b4 2 0) + (cond b5 1 0)
  let v := box.getD (row * 16 + col) 0
  [decide (v / 8 % 2 = 1), decide (v / 4 % 2 = 1), decide (v / 2 % 2 = 1),
   decide (v % 2 = 1)]

/-- Run the S-boxes listed in `boxes` over consecutive 6-bit groups. -/
def sboxAll : List (List Nat) → List Bool → List Bool
  | box :: boxes, b1 :: b2 :: b3 :: b4 :: b5 :: b6 :: rest =>
      sboxBits box b1 b2 b3 b4 b5 b6 ++ sboxAll boxes rest
  | _, _ => []

/-- The DES round function f: expand, mix the subkey, substitute, permute. -/
def desF (K R : List Bool) : List Bool :=
  applyPerm desP (sboxAll desSBoxes (xorBits (applyPerm desE R) K))

/-- One Feistel round on the half-block pair. -/
def desRound (st : List Bool × List Bool) (K : List Bool) :
    List Bool × List Bool :=
  (st.2, xorBits st.1 (desF K st.2))

/-- Left rotation of a key half by `s` positions. -/
def rotHalf (s : Nat) (l : List Bool) : List Bool := l.drop s ++ l.take s

/-- The 16 48-bit round subkeys from the rotating key halves. -/
def subkeysAux : List Nat → List Bool → List Bool → List (List Bool)
  | [], _, _ => []
  | s :: rest, C, D =>
      let C2 := rotHalf s C
      let D2 := rotHalf s D
      applyPerm desPC2 (C2 ++ D2) :: subkeysAux rest C2 D2

/-- The DES key schedule of an 8-byte key. -/
def desSubkeys (key : List Nat) : List (List Bool) :=
  let b := applyPerm desPC1 (bytesToBits key)
  subkeysAux desShifts (b.take 28) (b.drop 28)

/-- One DES block transformation for a given subkey sequence: initial
permutation, 16 Feistel rounds, swap, final permutation.  Encryption uses
the subkeys in order, decryption in reverse order. -/
def desBlockWithKeys (Ks : List (List Bool)) (block : List Bool) : List Bool :=
  let ip := applyPerm desIP block
  let st := Ks.foldl desRound (ip.take 32, ip.drop 32)
  applyPerm desFP (st.2 ++ st.1)

/-- Single-DES encryption of a 64-bit block under an 8-byte key. -/
def desEncryptBlock (key : List Nat) (block : List Bool) : List Bool :=
  desBlockWithKeys (desSubkeys key) block

/-- Single-DES decryption of a 64-bit block under an 8-byte key. -/
def desDecryptBlock (key : List Nat) (block : List Bool) : List Bool :=
  desBlockWithKeys (desSubkeys key).reverse block

/-- Triple-DES (EDE) encryption of one block under three 8-byte keys. -/
def des3EncryptBlock (k1 k2 k3 : List Nat) (block : List Bool) : List Bool :=
  desEncryptBlock k3 (desDecryptBlock k2 (desEncryptBlock k1 block))

/-- Triple-DES (EDE) decryption of one block under three 8-byte keys. -/
def des3DecryptBlock (k1 k2 k3 : List Nat) (block : List Bool) : List Bool :=
  desDecryptBlock k1 (desEncryptBlock k2 (desDecryptBlock k3 block))

/-- Split a byte list into 8-byte blocks (a ragged tail is dropped; the
cipher is only ever applied to padded input, whose length is a multiple
of 8). -/
def chunks8 : List Nat → List (List Nat)
  | b0 :: b1 :: b2 :: b3 :: b4 :: b5 :: b6 :: b7 :: rest =>
      [b0, b1, b2, b3, b4, b5, b6, b7] :: chunks8 rest
  | _ => []

/-- `DES3.new(key, DES3.MODE_ECB).encrypt`: ECB mode, each 8-byte block
encrypted independently under the 24-byte key split as k1, k2, k3. -/
def des3EcbEncrypt (key : List Nat) (bs : List Nat) : List Nat :=
  (chunks8 bs).flatMap fun blk =>
    bitsToBytes (des3EncryptBlock (key.take 8) ((key.drop 8).take 8)
      ((key.drop 16).take 8) (bytesToBits blk))

/-- Triple-DES ECB decryption (for the round-trip statements). -/
def des3EcbDecrypt (key : List Nat) (bs : List Nat) : List Nat :=
  (chunks8 bs).flatMap fun blk =>
    bitsToBytes (des3DecryptBlock (key.take 8) ((key.drop 8).take 8)
      ((key.drop 16).take 8) (bytesToBits blk))

/-! ## Padding and `encrypt_payload` -/

/-- The pad length computed in `encrypt_payload`:
`8 - (len(plaintext.encode("utf-8")) % 8)`. -/
def padLenOf (plaintext : String) : Nat :=
  8 - (utf8Encode plaintext.data).length % 8

/-- The padding step of `encrypt_payload`:
`padded = plaintext + chr(pad_len) * pad_len`. -/
def pkcs7PadStr (plaintext : String) : String :=
  plaintext ++ String.mk (List.replicate (padLenOf plaintext) (Char.ofNat (padLenOf plaintext)))

/-- `encrypt_payload` from `src/xpresspay/encryption.py`: serialize the
payload to compact JSON (a serialization error becomes
`EncryptionError("Failed to serialize payload to JSON: ...")`); inside the
try-block derive the key, pad, encrypt with triple DES in ECB mode and
Base64-encode; every exception raised inside the try-block — including the
`EncryptionError` raised by `_derive_key`, which is an `Exception` and is
therefore caught by the `except Exception` handler — is reraised as
`EncryptionError("Encryption failed: ...")` carrying the message of the
underlying exception.  `DES3.new` accepts a 24-byte key and raises a
ValueError for other derived-key lengths (its parity-degeneracy check on
crafted keys is not modelled). -/
def encrypt_payload (data : PyVal) (secret_key : String) :
    Except EncryptionError String :=
  match pyJsonDumps data with
  | .error emsg => .error ⟨"Failed to serialize payload to JSON: " ++ emsg⟩
  | .ok plaintext =>
    match deriveKey secret_key with
    | .error exc => .error ⟨"Encryption failed: " ++ exc.message⟩
    | .ok key =>
      if key.length = 24 then
        .ok (String.mk (b64EncodeChars
          (des3EcbEncrypt key (utf8Encode (pkcs7PadStr plaintext).data))))
      else .error ⟨"Encryption failed: Not a valid TDES key"⟩

/-- PKCS#7 unpadding — the strip-padding direction used by the round-trip
property of the spec (the SDK itself only encrypts): read the final byte
as the pad length, check the padding, and drop it. -/
def pkcs7Unpad (bs : List Nat) : Except String (List Nat) :=
  match bs.getLast? with
  | Option.none => .error "empty input"
  | Option.some n =>
    if 1 ≤ n ∧ n ≤ 8 ∧ n ≤ bs.length ∧
        (bs.drop (bs.length - n)).all (fun b => b == n) then
      .ok (bs.take (bs.length - n))
    else .error "bad padding"

end XPay


namespace XPay

/-! ## Helper lemmas: UTF-8 -/

theorem utf8Encode_append (l1 l2 : List Char) :
    utf8Encode (l1 ++ l2) = utf8Encode l1 ++ utf8Encode l2 := by
  induction l1 with
  | nil => rfl
  | cons c cs ih => simp [utf8Encode, ih]

theorem utf8Char_ascii {c : Char} (h : c.toNat < 128) : utf8Char c = [c.toNat] := by
  simp [utf8Char, h]

theorem char_toNat_lt (c : Char) : c.toNat < 1114112 := by
  have h := c.valid
  rcases h with h | ⟨_, h⟩
  · show c.val.toNat < 1114112
    omega
  · exact h

theorem utf8Char_lt256 (c : Char) : ∀ b ∈ utf8Char c, b < 256 := by
  have h := char_toNat_lt c
  intro b hb
  simp only [utf8Char] at hb
  split_ifs at hb <;> simp at hb <;> omega

theorem utf8Encode_lt256 (l : List Char) : ∀ b ∈ utf8Encode l, b < 256 := by
  induction l with
  | nil => simp [utf8Encode]
  | cons c cs ih =>
    intro b hb
    simp [utf8Encode] at hb
    rcases hb with hb | hb
    · exact utf8Char_lt256 c b hb
    · exact ih b hb

theorem utf8Encode_ascii (l : List Char) (h : ∀ c ∈ l, c.toNat < 128) :
    utf8Encode l = l.map Char.toNat := by
  induction l with
  | nil => rfl
  | cons c cs ih =>
    have hc : c.toNat < 128 := h c (by simp)
    simp [utf8Encode, utf8Char_ascii hc, ih fun d hd => h d (by simp [hd])]

theorem utf8Encode_length_ascii (l : List Char) (h : ∀ c ∈ l, c.toNat < 128) :
    (utf8Encode l).length = l.length := by
  rw [utf8Encode_ascii l h, List.length_map]

/-! ## Helper lemmas: MD5 hex digest -/

theorem md5Bytes_length (m : List Nat) : (md5Bytes m).length = 16 := by
  simp [md5Bytes, le4]

theorem md5Bytes_lt256 (m : List Nat) : ∀ b ∈ md5Bytes m, b < 256 := by
  intro b hb
  simp [md5Bytes, le4] at hb
  omega

theorem bytesHex_length (bs : List Nat) : (bytesHex bs).length = 2 * bs.length := by
  induction bs with
  | nil => rfl
  | cons b tl ih => simp [bytesHex, byteHex, ih]; omega

theorem md5HexChars_length (m : List Nat) : (md5HexChars m).length = 32 := by
  simp [md5HexChars, bytesHex_length, md5Bytes_length]

theorem hexChar_ascii (n : Nat) (h : n < 16) : (hexChar n).toNat < 128 := by
  interval_cases n <;> decide

theorem bytesHex_ascii (bs : List Nat) (h : ∀ b ∈ bs, b < 256) :
    ∀ c ∈ bytesHex bs, c.toNat < 128 := by
  induction bs with
  | nil => simp [bytesHex]
  | cons b tl ih =>
    intro c hc
    have hb : b < 256 := h b (by simp)
    simp [bytesHex, byteHex] at hc
    rcases hc with hc | hc | hc
    · exact hc ▸ hexChar_ascii _ (by omega)
    · exact hc ▸ hexChar_ascii _ (by omega)
    · exact ih (fun x hx => h x (by simp [hx])) c hc

theorem md5HexChars_ascii (m : List Nat) : ∀ c ∈ md5HexChars m, c.toNat < 128 :=
  bytesHex_ascii _ (md5Bytes_lt256 m)

/-! ## Helper lemmas: key derivation -/

theorem deriveKey_ok (s : String) (h1 : s ≠ "") (h2 : 12 ≤ (stripSecret s.data).length) :
    deriveKey s = .ok (utf8Encode ((stripSecret s.data).take 12) ++
      utf8Encode ((md5HexChars (utf8Encode s.data)).drop 20)) := by
  unfold deriveKey
  rw [if_neg h1, if_neg (by omega)]
  simp only [md5HexChars_length, ← utf8Encode_append]

end XPay

namespace XPay

/-! ## Claims about key derivation -/

/-- C1: for every non-empty secret whose stripped form has at least 12
characters, `_derive_key` returns the UTF-8 bytes of the first 12
characters of the secret with every occurrence of `XPSECK-` removed,
concatenated with the UTF-8 bytes of the last 12 characters (out of 32) of
the lowercase hex MD5 digest of the original, unstripped secret; in
particular, for the secret `XPSECK-ab12cd34ef56gh78ij90kl12-X` the first
12 key bytes are the ASCII bytes of `ab12cd34ef56`. -/
theorem c1_derive_key_structure :
    (∀ s : String, s ≠ "" → 12 ≤ (stripSecret s.data).length →
      deriveKey s = .ok (utf8Encode ((stripSecret s.data).take 12) ++
        utf8Encode ((md5HexChars (utf8Encode s.data)).drop
          ((md5HexChars (utf8Encode s.data)).length - 12)))) ∧
    (deriveKey "XPSECK-ab12cd34ef56gh78ij90kl12-X").toOption.map (List.take 12) =
      some (utf8Encode "ab12cd34ef56".data) := by
  constructor
  · intro s h1 h2
    rw [md5HexChars_length]
    exact deriveKey_ok s h1 h2
  · decide

/-- Witness for C1 at the concrete dashboard-style secret. -/
theorem c1_witness :
    deriveKey "XPSECK-ab12cd34ef56gh78ij90kl12-X" =
      .ok (utf8Encode ((stripSecret "XPSECK-ab12cd34ef56gh78ij90kl12-X".data).take 12) ++
        utf8Encode ((md5HexChars (utf8Encode "XPSECK-ab12cd34ef56gh78ij90kl12-X".data)).drop
          ((md5HexChars (utf8Encode "XPSECK-ab12cd34ef56gh78ij90kl12-X".data)).length - 12))) :=
  c1_derive_key_structure.1 "XPSECK-ab12cd34ef56gh78ij90kl12-X" (by decide) (by decide)

/-- C5 refuted as stated: Python counts the 12 stripped characters, but
the key is their UTF-8 encoding, so a secret of 12 non-ASCII characters
passes the length check yet derives a 36-byte key (not 24 bytes). -/
theorem c5_counterexample :
    "ññññññññññññ" ≠ "" ∧ 12 ≤ (stripSecret "ññññññññññññ".data).length ∧
    (deriveKey "ññññññññññññ").toOption.map List.length = some 36 := by
  refine ⟨by decide, by decide, by decide⟩

/-- C5 (amended): for all non-empty secrets whose stripped form is at
least 12 characters long and whose first 12 stripped characters are
ASCII, `_derive_key` returns exactly 24 bytes; and it is deterministic
(it is a pure function of the secret). -/
theorem c5_amended :
    (∀ s : String, s ≠ "" → 12 ≤ (stripSecret s.data).length →
      (∀ c ∈ (stripSecret s.data).take 12, c.toNat < 128) →
      ∃ k, deriveKey s = .ok k ∧ k.length = 24) ∧
    (∀ s : String, deriveKey s = deriveKey s) := by
  constructor
  · intro s h1 h2 hascii
    refine ⟨_, deriveKey_ok s h1 h2, ?_⟩
    rw [List.length_append]
    have ha : (utf8Encode ((stripSecret s.data).take 12)).length = 12 := by
      rw [utf8Encode_length_ascii _ hascii, List.length_take]
      omega
    have hb : (utf8Encode ((md5HexChars (utf8Encode s.data)).drop 20)).length = 12 := by
      rw [utf8Encode_length_ascii]
      · rw [List.length_drop, md5HexChars_length]
      · intro c hc
        exact md5HexChars_ascii _ c (List.mem_of_mem_drop hc)
    omega
  · intro s
    rfl

/-- Witness for C5 (amended) at the concrete dashboard-style secret. -/
theorem c5_witness :
    (∃ k, deriveKey "XPSECK-ab12cd34ef56gh78ij90kl12-X" = .ok k ∧ k.length = 24) ∧
    deriveKey "" = deriveKey "" :=
  ⟨c5_amended.1 "XPSECK-ab12cd34ef56gh78ij90kl12-X" (by decide) (by decide) (by decide),
   c5_amended.2 ""⟩

/-- C6: `_derive_key` fails with an `EncryptionError` on the empty secret
and on any secret whose stripped form has fewer than 12 characters, and
returns a key (raises nothing) otherwise. -/
theorem c6_derive_key_errors :
    (∃ e, deriveKey "" = .error e) ∧
    (∀ s : String, s ≠ "" → (stripSecret s.data).length < 12 →
      ∃ e, deriveKey s = .error e) ∧
    (∀ s : String, s ≠ "" → 12 ≤ (stripSecret s.data).length →
      ∃ k, deriveKey s = .ok k) := by
  refine ⟨⟨_, rfl⟩, ?_, ?_⟩
  · intro s h1 h2
    unfold deriveKey
    rw [if_neg h1, if_pos h2]
    exact ⟨_, rfl⟩
  · intro s h1 h2
    exact ⟨_, deriveKey_ok s h1 h2⟩

/-- Witness for C6 at the secrets named by the spec. -/
theorem c6_witness :
    (∃ e, deriveKey "XPSECK-short" = .error e) ∧
    (∃ k, deriveKey "XPSECK-ab12cd34ef56gh78ij90kl12-X" = .ok k) :=
  ⟨c6_derive_key_errors.2.1 "XPSECK-short" (by decide) (by decide),
   c6_derive_key_errors.2.2 "XPSECK-ab12cd34ef56gh78ij90kl12-X" (by decide) (by decide)⟩

end XPay

namespace XPay

/-! ## Helper lemmas: encrypt_payload error paths -/

theorem encrypt_payload_serError (v : PyVal) (s : String) (e : String)
    (h : pyJsonDumps v = .error e) :
    encrypt_payload v s = .error ⟨"Failed to serialize payload to JSON: " ++ e⟩ := by
  unfold encrypt_payload
  rw [h]

theorem encrypt_payload_deriveError (v : PyVal) (s pt : String) (e : EncryptionError)
    (hv : pyJsonDumps v = .ok pt) (hd : deriveKey s = .error e) :
    encrypt_payload v s = .error ⟨"Encryption failed: " ++ e.message⟩ := by
  unfold encrypt_payload
  rw [hv, hd]

/-! ## Claims about the error discipline -/

/-- C7 refuted as stated: a derivation failure is not propagated with its
message intact — the catch-all `except Exception` of `encrypt_payload`
also catches the `EncryptionError` raised by `_derive_key` and re-raises
it with the message prefixed by `Encryption failed: `. -/
theorem c7_counterexample :
    deriveKey "" = .error ⟨"Secret key must not be empty."⟩ ∧
    encrypt_payload (.dict .nil) "" =
      .error ⟨"Encryption failed: Secret key must not be empty."⟩ ∧
    ("Encryption failed: Secret key must not be empty." : String) ≠
      "Secret key must not be empty." :=
  ⟨rfl, rfl, by decide⟩

/-- C7 (amended): when key derivation fails inside `encrypt_payload` on a
serializable payload, the caller observes the same single error type
`EncryptionError`, but its message is wrapped: it is the derivation
message prefixed with `Encryption failed: `, not the unchanged message. -/
theorem c7_derive_failure_wrapped :
    ∀ (v : PyVal) (s pt : String) (e : EncryptionError),
      pyJsonDumps v = .ok pt → deriveKey s = .error e →
      encrypt_payload v s = .error ⟨"Encryption failed: " ++ e.message⟩ :=
  fun v s pt e hv hd => encrypt_payload_deriveError v s pt e hv hd

/-- Witness for C7 (amended): empty payload, empty secret. -/
theorem c7_witness :
    encrypt_payload (.dict .nil) "" =
      .error ⟨"Encryption failed: " ++
        (EncryptionError.mk "Secret key must not be empty.").message⟩ :=
  c7_derive_failure_wrapped (.dict .nil) "" "\x7b\x7d"
    ⟨"Secret key must not be empty."⟩ rfl rfl

/-- C4: every outcome of `encrypt_payload` is either a success or the
single error type `EncryptionError` (no lower-level exception escapes),
and for a non-serializable payload the error message is the serializer
message prefixed with `Failed to serialize payload to JSON: `. -/
theorem c4_single_error_type :
    (∀ (v : PyVal) (s : String),
      (∃ r, encrypt_payload v s = .ok r) ∨
      (∃ m, encrypt_payload v s = .error ⟨m⟩)) ∧
    (∀ (v : PyVal) (s : String) (e : String), pyJsonDumps v = .error e →
      encrypt_payload v s =
        .error ⟨"Failed to serialize payload to JSON: " ++ e⟩) := by
  constructor
  · intro v s
    cases h : encrypt_payload v s with
    | ok r => exact Or.inl ⟨r, rfl⟩
    | error e => exact Or.inr ⟨e.message, rfl⟩
  · intro v s e h
    exact encrypt_payload_serError v s e h

/-- Witness for C4: a payload holding an opaque object reference fails
with the serialization message. -/
theorem c4_witness :
    encrypt_payload (.dict (.cons "bad" (.objref "object") .nil))
        "XPSECK-ab12cd34ef56gh78ij90kl12-X" =
      .error ⟨"Failed to serialize payload to JSON: " ++
        "Object of type object is not JSON serializable"⟩ :=
  c4_single_error_type.2 (.dict (.cons "bad" (.objref "object") .nil))
    "XPSECK-ab12cd34ef56gh78ij90kl12-X"
    "Object of type object is not JSON serializable" rfl

end XPay

namespace XPay

/-! ## Helper lemmas: padding -/

theorem utf8Encode_replicate (n : Nat) (c : Char) (h : c.toNat < 128) :
    utf8Encode (List.replicate n c) = List.replicate n c.toNat := by
  induction n with
  | zero => rfl
  | succ k ih => simp [List.replicate_succ, utf8Encode, utf8Char_ascii h, ih]

theorem padLenOf_pos (pt : String) : 1 ≤ padLenOf pt := by
  unfold padLenOf
  omega

theorem padLenOf_le (pt : String) : padLenOf pt ≤ 8 := by
  unfold padLenOf
  omega

theorem ofNat_toNat_pad (p : Nat) (h1 : 1 ≤ p) (h2 : p ≤ 8) :
    (Char.ofNat p).toNat = p ∧ (Char.ofNat p).toNat < 128 := by
  interval_cases p <;> exact ⟨rfl, by decide⟩

theorem padBytes_eq (pt : String) :
    utf8Encode (pkcs7PadStr pt).data =
      utf8Encode pt.data ++ List.replicate (padLenOf pt) (padLenOf pt) := by
  obtain ⟨hto, hlt⟩ := ofNat_toNat_pad (padLenOf pt) (padLenOf_pos pt) (padLenOf_le pt)
  unfold pkcs7PadStr
  rw [String.data_append]
  show utf8Encode (pt.data ++ List.replicate (padLenOf pt) (Char.ofNat (padLenOf pt))) = _
  rw [utf8Encode_append, utf8Encode_replicate _ _ hlt, hto]

end XPay

namespace XPay

/-- C2: the padding inside `encrypt_payload` computes
`pad_len = 8 - (byte length mod 8)`, always in 1..8 (a full pad block when
the length is already a multiple of 8), and appends `pad_len` bytes of
numeric value `pad_len`; the empty payload serializes to the 2-byte JSON
text of an empty object, is padded to 8 bytes with six `0x06` bytes, and
its encryption succeeds. -/
theorem c2_padding :
    (∀ pt : String,
      padLenOf pt = 8 - (utf8Encode pt.data).length % 8 ∧
      1 ≤ padLenOf pt ∧ padLenOf pt ≤ 8 ∧
      ((utf8Encode pt.data).length % 8 = 0 → padLenOf pt = 8) ∧
      utf8Encode (pkcs7PadStr pt).data =
        utf8Encode pt.data ++ List.replicate (padLenOf pt) (padLenOf pt) ∧
      (utf8Encode (pkcs7PadStr pt).data).length % 8 = 0) ∧
    pyJsonDumps (.dict .nil) = .ok "\x7b\x7d" ∧
    (utf8Encode "\x7b\x7d".data).length = 2 ∧
    utf8Encode (pkcs7PadStr "\x7b\x7d").data = [123, 125, 6, 6, 6, 6, 6, 6] ∧
    encrypt_payload (.dict .nil) "XPSECK-ab12cd34ef56gh78ij90kl12-X" =
      .ok "8GkVtZV6VFg=" := by
  refine ⟨?_, rfl, rfl, by decide, rfl⟩
  intro pt
  refine ⟨rfl, padLenOf_pos pt, padLenOf_le pt, ?_, padBytes_eq pt, ?_⟩
  · intro h
    unfold padLenOf
    omega
  · rw [padBytes_eq pt, List.length_append, List.length_replicate]
    have := padLenOf_pos pt
    have := padLenOf_le pt
    unfold padLenOf at *
    omega

/-- Witness for C2 at an 8-byte plaintext, discharging the
multiple-of-8 hypothesis: a full extra pad block of 8 is appended. -/
theorem c2_witness :
    1 ≤ padLenOf "01234567" ∧ padLenOf "01234567" = 8 :=
  ⟨(c2_padding.1 "01234567").2.1, (c2_padding.1 "01234567").2.2.2.1 (by decide)⟩

end XPay

namespace XPay

/-! ## Helper lemmas: ASCII output of the serializer -/

theorem hex4_ascii (n : Nat) : ∀ c ∈ hex4 n, c.toNat < 128 := by
  intro c hc
  simp [hex4] at hc
  rcases hc with hc | hc | hc | hc <;>
    exact hc ▸ hexChar_ascii _ (by omega)

theorem escapeChar_ascii (c : Char) : ∀ d ∈ escapeChar c, d.toNat < 128 := by
  intro d hd
  simp only [escapeChar] at hd
  split_ifs at hd with h1 h2 h3 h4 h5 h6 h7 h8 h9
  all_goals simp at hd
  all_goals try casesm* _ ∨ _
  all_goals first
    | (subst_vars; decide)
    | (subst_vars; omega)
    | exact hex4_ascii _ d (by assumption)

theorem escChars_ascii (l : List Char) : ∀ d ∈ escChars l, d.toNat < 128 := by
  induction l with
  | nil => simp [escChars]
  | cons c cs ih =>
    intro d hd
    simp [escChars] at hd
    rcases hd with hd | hd
    · exact escapeChar_ascii c d hd
    · exact ih d hd

theorem serStr_ascii (s : String) : ∀ c ∈ (serStr s).data, c.toNat < 128 := by
  intro c hc
  unfold serStr at hc
  rw [String.data_append, String.data_append] at hc
  simp at hc
  rcases hc with hc | hc | hc
  · subst hc; decide
  · exact escChars_ascii _ c hc
  · subst hc; decide

theorem natDigitsAux_ascii (fuel : Nat) :
    ∀ (n : Nat) (acc : List Char), (∀ c ∈ acc, c.toNat < 128) →
      ∀ c ∈ natDigitsAux fuel n acc, c.toNat < 128 := by
  induction fuel with
  | zero => intro n acc hacc c hc; exact hacc c hc
  | succ k ih =>
    intro n acc hacc c hc
    simp only [natDigitsAux] at hc
    split_ifs at hc
    · rcases List.mem_cons.mp hc with hc | hc
      · exact hc ▸ hexChar_ascii _ (by omega)
      · exact hacc c hc
    · refine ih (n / 10) _ ?_ c hc
      intro d hd
      rcases List.mem_cons.mp hd with hd | hd
      · exact hd ▸ hexChar_ascii _ (by omega)
      · exact hacc d hd

theorem intRepr_ascii (n : Int) : ∀ c ∈ intRepr n, c.toNat < 128 := by
  intro c hc
  cases n with
  | ofNat m => exact natDigitsAux_ascii _ _ _ (by simp) c hc
  | negSucc m =>
    simp only [intRepr] at hc
    rcases List.mem_cons.mp hc with hc | hc
    · subst hc; decide
    · exact natDigitsAux_ascii _ _ _ (by simp) c hc

end XPay

namespace XPay

mutual
/-- Every successful `serVal` output is pure ASCII. -/
theorem serVal_ascii : ∀ (v : PyVal) (s : String), serVal v = .ok s →
    ∀ c ∈ s.data, c.toNat < 128
  | .none, s, h => by
      injection h with h
      subst h
      decide
  | .bool true, s, h => by
      injection h with h
      subst h
      decide
  | .bool false, s, h => by
      injection h with h
      subst h
      decide
  | .int n, s, h => by
      injection h with h
      subst h
      exact intRepr_ascii n
  | .str t, s, h => by
      injection h with h
      subst h
      exact serStr_ascii t
  | .list xs, s, h => by
      cases hx : serList xs with
      | error e => simp [serVal, hx] at h
      | ok body =>
        simp only [serVal, hx] at h
        injection h with h
        subst h
        intro c hc
        rw [String.data_append, String.data_append] at hc
        have hl : ("[" : String).data = ['['] := rfl
        have hr : ("]" : String).data = [']'] := rfl
        rw [hl, hr] at hc
        simp at hc
        rcases hc with hc | hc | hc
        · subst hc; decide
        · exact serList_ascii xs body hx c hc
        · subst hc; decide
  | .dict kvs, s, h => by
      cases hx : serDict kvs with
      | error e => simp [serVal, hx] at h
      | ok body =>
        simp only [serVal, hx] at h
        injection h with h
        subst h
        intro c hc
        rw [String.data_append, String.data_append] at hc
        have hl : ("\x7b" : String).data = ['\x7b'] := rfl
        have hr : ("\x7d" : String).data = ['\x7d'] := rfl
        rw [hl, hr] at hc
        simp at hc
        rcases hc with hc | hc | hc
        · subst hc; decide
        · exact serDict_ascii kvs body hx c hc
        · subst hc; decide
  | .objref ty, s, h => by
      simp [serVal] at h

/-- Every successful `serList` output is pure ASCII. -/
theorem serList_ascii : ∀ (xs : PyList) (s : String), serList xs = .ok s →
    ∀ c ∈ s.data, c.toNat < 128
  | .nil, s, h => by
      injection h with h
      subst h
      intro c hc
      simp [String.data] at hc
  | .cons v .nil, s, h => serVal_ascii v s h
  | .cons v (.cons w tl), s, h => by
      cases hv : serVal v with
      | error e => simp [serList, hv] at h
      | ok a =>
        cases hr : serList (.cons w tl) with
        | error e => simp [serList, hv, hr] at h
        | ok b =>
          simp only [serList, hv, hr] at h
          injection h with h
          subst h
          intro c hc
          rw [String.data_append, String.data_append] at hc
          have hm : ("," : String).data = [','] := rfl
          rw [hm] at hc
          simp at hc
          rcases hc with hc | hc | hc
          · exact serVal_ascii v a hv c hc
          · subst hc; decide
          · exact serList_ascii (.cons w tl) b hr c hc

/-- Every successful `serDict` output is pure ASCII. -/
theorem serDict_ascii : ∀ (kvs : PyDict) (s : String), serDict kvs = .ok s →
    ∀ c ∈ s.data, c.toNat < 128
  | .nil, s, h => by
      injection h with h
      subst h
      intro c hc
      simp [String.data] at hc
  | .cons k v .nil, s, h => by
      cases hv : serVal v with
      | error e => simp [serDict, hv] at h
      | ok a =>
        simp only [serDict, hv] at h
        injection h with h
        subst h
        intro c hc
        rw [String.data_append, String.data_append] at hc
        have hm : (":" : String).data = [':'] := rfl
        rw [hm] at hc
        simp at hc
        rcases hc with hc | hc | hc
        · exact serStr_ascii k c hc
        · subst hc; decide
        · exact serVal_ascii v a hv c hc
  | .cons k v (.cons k2 w tl), s, h => by
      cases hv : serVal v with
      | error e => simp [serDict, hv] at h
      | ok a =>
        cases hr : serDict (.cons k2 w tl) with
        | error e => simp [serDict, hv, hr] at h
        | ok b =>
          simp only [serDict, hv, hr] at h
          injection h with h
          subst h
          intro c hc
          rw [String.data_append, String.data_append, String.data_append,
            String.data_append] at hc
          have hm : ("," : String).data = [','] := rfl
          have hn : (":" : String).data = [':'] := rfl
          rw [hm, hn] at hc
          simp at hc
          rcases hc with hc | hc | hc | hc | hc
          · exact serStr_ascii k c hc
          · subst hc; decide
          · exact serVal_ascii v a hv c hc
          · subst hc; decide
          · exact serDict_ascii (.cons k2 w tl) b hr c hc
end

/-- C9: the canonical JSON text produced inside `encrypt_payload` is
always pure ASCII — `json.dumps` with its default `ensure_ascii=True`
escapes every non-ASCII character — so the canonical bytes fed to
padding and encryption are ASCII bytes. -/
theorem c9_serializer_ascii :
    ∀ (v : PyVal) (pt : String), pyJsonDumps v = .ok pt →
      ∀ c ∈ pt.data, c.toNat < 128 :=
  fun v pt h => serVal_ascii v pt h

/-- Witness for C9 on a payload whose value contains non-ASCII text: the
escape character that `json.dumps` emits for U+00E9 is ASCII. -/
theorem c9_witness : 'u'.toNat < 128 :=
  c9_serializer_ascii (.dict (.cons "a" (.str "éπ") .nil))
    "\x7b\"a\":\"\\u00e9\\u03c0\"\x7d" rfl 'u' (by decide)
end XPay

namespace XPay

/-! ## Helper lemmas: Base64 round trip -/

theorem b64v_b64c : ∀ n < 64, b64v (b64c n) = n := by decide
theorem b64c_ne_pad : ∀ n < 64, b64c n ≠ '=' := by decide

theorem b64Decode_quad (c1 c2 c3 c4 : Char) (rest : List Char)
    (h3 : c3 ≠ '=') (h4 : c4 ≠ '=') :
    b64DecodeChars (c1 :: c2 :: c3 :: c4 :: rest) =
      (b64v c1 * 4 + b64v c2 / 16) :: (b64v c2 % 16 * 16 + b64v c3 / 4) ::
        (b64v c3 % 4 * 64 + b64v c4) :: b64DecodeChars rest := by
  conv_lhs => unfold b64DecodeChars
  rw [if_neg h3, if_neg h4]

theorem b64_roundtrip : ∀ bs : List Nat, (∀ b ∈ bs, b < 256) →
    b64DecodeChars (b64EncodeChars bs) = bs := by
  intro bs
  induction bs using b64EncodeChars.induct with
  | case1 => intro _; rfl
  | case2 a =>
    intro h
    have ha : a < 256 := h a (by simp)
    show b64DecodeChars [b64c (a / 4), b64c (a % 4 * 16), '=', '='] = [a]
    have e1 : b64v (b64c (a / 4)) = a / 4 := b64v_b64c _ (by omega)
    have e2 : b64v (b64c (a % 4 * 16)) = a % 4 * 16 := b64v_b64c _ (by omega)
    conv_lhs => unfold b64DecodeChars
    rw [if_pos rfl, e1, e2]
    congr 1
    omega
  | case3 a b =>
    intro h
    have ha : a < 256 := h a (by simp)
    have hb : b < 256 := h b (by simp)
    show b64DecodeChars [b64c (a / 4), b64c (a % 4 * 16 + b / 16), b64c (b % 16 * 4), '='] = [a, b]
    have e1 : b64v (b64c (a / 4)) = a / 4 := b64v_b64c _ (by omega)
    have e2 : b64v (b64c (a % 4 * 16 + b / 16)) = a % 4 * 16 + b / 16 := b64v_b64c _ (by omega)
    have e3 : b64v (b64c (b % 16 * 4)) = b % 16 * 4 := b64v_b64c _ (by omega)
    have n3 : b64c (b % 16 * 4) ≠ '=' := b64c_ne_pad _ (by omega)
    conv_lhs => unfold b64DecodeChars
    rw [if_neg n3, if_pos rfl, e1, e2, e3]
    congr 1
    · omega
    congr 1
    omega
  | case4 a b c =>
    intro h
    have ha : a < 256 := h a (by simp)
    have hb : b < 256 := h b (by simp)
    have hc : c < 256 := h c (by simp)
    show b64DecodeChars [b64c (a / 4), b64c (a % 4 * 16 + b / 16),
      b64c (b % 16 * 4 + c / 64), b64c (c % 64)] = [a, b, c]
    have e1 : b64v (b64c (a / 4)) = a / 4 := b64v_b64c _ (by omega)
    have e2 : b64v (b64c (a % 4 * 16 + b / 16)) = a % 4 * 16 + b / 16 := b64v_b64c _ (by omega)
    have e3 : b64v (b64c (b % 16 * 4 + c / 64)) = b % 16 * 4 + c / 64 := b64v_b64c _ (by omega)
    have e4 : b64v (b64c (c % 64)) = c % 64 := b64v_b64c _ (by omega)
    have n3 : b64c (b % 16 * 4 + c / 64) ≠ '=' := b64c_ne_pad _ (by omega)
    have n4 : b64c (c % 64) ≠ '=' := b64c_ne_pad _ (by omega)
    rw [b64Decode_quad _ _ _ _ _ n3 n4, e1, e2, e3, e4]
    show [_, _, _] = [a, b, c]
    congr 1
    · omega
    congr 1
    · omega
    congr 1
    omega
  | case5 a b c rest h1 ih =>
    intro h
    have ha : a < 256 := h a (by simp)
    have hb : b < 256 := h b (by simp)
    have hc : c < 256 := h c (by simp)
    have e1 : b64v (b64c (a / 4)) = a / 4 := b64v_b64c _ (by omega)
    have e2 : b64v (b64c (a % 4 * 16 + b / 16)) = a % 4 * 16 + b / 16 := b64v_b64c _ (by omega)
    have e3 : b64v (b64c (b % 16 * 4 + c / 64)) = b % 16 * 4 + c / 64 := b64v_b64c _ (by omega)
    have e4 : b64v (b64c (c % 64)) = c % 64 := b64v_b64c _ (by omega)
    have n3 : b64c (b % 16 * 4 + c / 64) ≠ '=' := b64c_ne_pad _ (by omega)
    have n4 : b64c (c % 64) ≠ '=' := b64c_ne_pad _ (by omega)
    cases rest with
    | nil => exact absurd rfl h1
    | cons x xs =>
      show b64DecodeChars (b64c (a / 4) :: b64c (a % 4 * 16 + b / 16) ::
        b64c (b % 16 * 4 + c / 64) :: b64c (c % 64) :: b64EncodeChars (x :: xs)) =
          a :: b :: c :: x :: xs
      rw [b64Decode_quad _ _ _ _ _ n3 n4, e1, e2, e3, e4]
      rw [ih (fun y hy => h y (by simp [hy]))]
      congr 1
      · omega
      congr 1
      · omega
      congr 1
      omega

end XPay

namespace XPay

/-! ## Helper lemmas: DES block inversion -/

theorem xorBits_length (a b : List Bool) : (xorBits a b).length = min a.length b.length := by
  simp [xorBits]

theorem xorBits_xorBits (a : List Bool) : ∀ b : List Bool, a.length ≤ b.length →
    xorBits (xorBits a b) b = a := by
  induction a with
  | nil => intro b _; simp [xorBits]
  | cons x xs ih =>
    intro b h
    cases b with
    | nil => simp at h
    | cons y ys =>
      simp only [xorBits, List.zipWith_cons_cons] at *
      rw [show xor (xor x y) y = x from by cases x <;> cases y <;> rfl]
      rw [ih ys (by simpa using h)]

theorem applyPerm_length (t : List Nat) (b : List Bool) :
    (applyPerm t b).length = t.length := by
  simp [applyPerm]

theorem applyPerm_getD (t : List Nat) (b : List Bool) (j : Nat) (hj : j < t.length) :
    (applyPerm t b).getD j false = b.getD (t.getD j 0 - 1) false := by
  have hj2 : j < (applyPerm t b).length := by simpa [applyPerm_length] using hj
  rw [List.getD_eq_getElem _ _ hj2]
  unfold applyPerm
  rw [List.getElem_map]
  congr 1
  rw [List.getD_eq_getElem _ _ hj]

theorem applyPerm_cancel_64 (t1 t2 : List Nat) (bits : List Bool)
    (h1 : t1.length = 64) (h2 : t2.length = 64) (hb : bits.length = 64)
    (hcomp : ∀ j, j < 64 → t1.getD j 0 - 1 < 64 ∧ t2.getD (t1.getD j 0 - 1) 0 - 1 = j) :
    applyPerm t1 (applyPerm t2 bits) = bits := by
  apply List.ext_getElem
  · simp [applyPerm_length, h1, hb]
  intro j hj1 hj2
  have hj64 : j < 64 := by
    rw [applyPerm_length, h1] at hj1
    exact hj1
  obtain ⟨hr, hc⟩ := hcomp j hj64
  rw [← List.getD_eq_getElem _ false hj1, applyPerm_getD _ _ _ (by omega),
      applyPerm_getD _ _ _ (by omega), hc, List.getD_eq_getElem _ _ hj2]

theorem desFP_desIP_cancel (bits : List Bool) (hb : bits.length = 64) :
    applyPerm desFP (applyPerm desIP bits) = bits :=
  applyPerm_cancel_64 desFP desIP bits rfl rfl hb (by decide)

theorem desIP_desFP_cancel (bits : List Bool) (hb : bits.length = 64) :
    applyPerm desIP (applyPerm desFP bits) = bits :=
  applyPerm_cancel_64 desIP desFP bits rfl rfl hb (by decide)

theorem desF_length (K R : List Bool) : (desF K R).length = 32 := by
  unfold desF
  rw [applyPerm_length]
  rfl

theorem desRound_fst_length (st : List Bool × List Bool) (K : List Bool)
    (h2 : st.2.length = 32) : (desRound st K).1.length = 32 := h2

theorem desRound_snd_length (st : List Bool × List Bool) (K : List Bool)
    (h1 : st.1.length = 32) : (desRound st K).2.length = 32 := by
  simp [desRound, xorBits_length, desF_length, h1]

theorem foldl_desRound_length (Ks : List (List Bool)) :
    ∀ st : List Bool × List Bool, st.1.length = 32 → st.2.length = 32 →
      (Ks.foldl desRound st).1.length = 32 ∧ (Ks.foldl desRound st).2.length = 32 := by
  induction Ks with
  | nil => intro st h1 h2; exact ⟨h1, h2⟩
  | cons K Ks ih =>
    intro st h1 h2
    simp only [List.foldl_cons]
    exact ih _ (desRound_fst_length st K h2) (desRound_snd_length st K h1)

theorem foldl_desRound_rev (Ks : List (List Bool)) :
    ∀ st : List Bool × List Bool, st.1.length = 32 → st.2.length = 32 →
      Ks.reverse.foldl desRound (Ks.foldl desRound st).swap = st.swap := by
  induction Ks with
  | nil => intro st _ _; rfl
  | cons K Ks ih =>
    intro st h1 h2
    have e2 : (K :: Ks).foldl desRound st = Ks.foldl desRound (desRound st K) :=
      List.foldl_cons ..
    rw [List.reverse_cons, e2, List.foldl_append,
      ih (desRound st K) (desRound_fst_length st K h2) (desRound_snd_length st K h1),
      List.foldl_cons, List.foldl_nil]
    cases st with
    | mk L R =>
      show desRound (xorBits L (desF K R), R) K = (R, L)
      unfold desRound
      simp only
      congr 1
      exact xorBits_xorBits L (desF K R) (by rw [desF_length]; exact le_of_eq h1)

theorem desBlockWithKeys_length (Ks : List (List Bool)) (b : List Bool) :
    (desBlockWithKeys Ks b).length = 64 := by
  unfold desBlockWithKeys
  rw [applyPerm_length]
  rfl

theorem desBlockWithKeys_cancel (Ks : List (List Bool)) (b : List Bool)
    (hb : b.length = 64) :
    desBlockWithKeys Ks.reverse (desBlockWithKeys Ks b) = b := by
  have hip : (applyPerm desIP b).length = 64 := by rw [applyPerm_length]; rfl
  have hL : ((applyPerm desIP b).take 32).length = 32 := by
    rw [List.length_take]; omega
  have hR : ((applyPerm desIP b).drop 32).length = 32 := by
    rw [List.length_drop]; omega
  obtain ⟨hs1, hs2⟩ := foldl_desRound_length Ks
    ((applyPerm desIP b).take 32, (applyPerm desIP b).drop 32) hL hR
  show applyPerm desFP _ = b
  unfold desBlockWithKeys
  have hcat :
      ((Ks.foldl desRound ((applyPerm desIP b).take 32, (applyPerm desIP b).drop 32)).2 ++
       (Ks.foldl desRound ((applyPerm desIP b).take 32, (applyPerm desIP b).drop 32)).1).length
        = 64 := by
    rw [List.length_append]; omega
  rw [desIP_desFP_cancel _ hcat, List.take_left' hs2, List.drop_left' hs2]
  have hswap :
      ((Ks.foldl desRound ((applyPerm desIP b).take 32, (applyPerm desIP b).drop 32)).2,
       (Ks.foldl desRound ((applyPerm desIP b).take 32, (applyPerm desIP b).drop 32)).1) =
      (Ks.foldl desRound ((applyPerm desIP b).take 32, (applyPerm desIP b).drop 32)).swap := rfl
  rw [hswap, foldl_desRound_rev Ks _ hL hR]
  show applyPerm desFP ((applyPerm desIP b).take 32 ++ (applyPerm desIP b).drop 32) = b
  rw [List.take_append_drop]
  exact desFP_desIP_cancel b hb


theorem desDecrypt_desEncrypt (key : List Nat) (b : List Bool) (hb : b.length = 64) :
    desDecryptBlock key (desEncryptBlock key b) = b :=
  desBlockWithKeys_cancel (desSubkeys key) b hb

theorem desEncrypt_desDecrypt (key : List Nat) (b : List Bool) (hb : b.length = 64) :
    desEncryptBlock key (desDecryptBlock key b) = b := by
  have h := desBlockWithKeys_cancel (desSubkeys key).reverse b hb
  rwa [List.reverse_reverse] at h

theorem desEncryptBlock_length (key : List Nat) (b : List Bool) :
    (desEncryptBlock key b).length = 64 :=
  desBlockWithKeys_length _ b

theorem desDecryptBlock_length (key : List Nat) (b : List Bool) :
    (desDecryptBlock key b).length = 64 :=
  desBlockWithKeys_length _ b

theorem des3EncryptBlock_length (k1 k2 k3 : List Nat) (b : List Bool) :
    (des3EncryptBlock k1 k2 k3 b).length = 64 :=
  desBlockWithKeys_length _ _

theorem des3Block_cancel (k1 k2 k3 : List Nat) (b : List Bool) (hb : b.length = 64) :
    des3DecryptBlock k1 k2 k3 (des3EncryptBlock k1 k2 k3 b) = b := by
  unfold des3EncryptBlock des3DecryptBlock
  rw [desDecrypt_desEncrypt k3 _ (desDecryptBlock_length k2 _),
      desEncrypt_desDecrypt k2 _ (desEncryptBlock_length k1 _),
      desDecrypt_desEncrypt k1 _ hb]

/-! ## Helper lemmas: bytes and bits -/

theorem byteBits_length (b : Nat) : (byteBits b).length = 8 := rfl

theorem bytesToBits_length (bs : List Nat) : (bytesToBits bs).length = 8 * bs.length := by
  induction bs with
  | nil => rfl
  | cons b tl ih =>
    show (byteBits b ++ bytesToBits tl).length = 8 * (tl.length + 1)
    rw [List.length_append, byteBits_length, ih]
    omega

theorem byteFromBits_lt256 :
    ∀ b7 b6 b5 b4 b3 b2 b1 b0 : Bool, byteFromBits b7 b6 b5 b4 b3 b2 b1 b0 < 256 := by
  decide

theorem byteBits_byteFromBits :
    ∀ b7 b6 b5 b4 b3 b2 b1 b0 : Bool,
      byteBits (byteFromBits b7 b6 b5 b4 b3 b2 b1 b0) = [b7, b6, b5, b4, b3, b2, b1, b0] := by
  decide

theorem byteFromBits_bits :
    ∀ x < 256, byteFromBits (decide (x / 128 % 2 = 1)) (decide (x / 64 % 2 = 1))
      (decide (x / 32 % 2 = 1)) (decide (x / 16 % 2 = 1)) (decide (x / 8 % 2 = 1))
      (decide (x / 4 % 2 = 1)) (decide (x / 2 % 2 = 1)) (decide (x % 2 = 1)) = x := by
  decide

theorem bitsToBytes_bytesToBits (bs : List Nat) (h : ∀ b ∈ bs, b < 256) :
    bitsToBytes (bytesToBits bs) = bs := by
  induction bs with
  | nil => rfl
  | cons b tl ih =>
    have hb : b < 256 := h b (by simp)
    show bitsToBytes (byteBits b ++ bytesToBits tl) = b :: tl
    show bitsToBytes (decide (b / 128 % 2 = 1) :: decide (b / 64 % 2 = 1) ::
      decide (b / 32 % 2 = 1) :: decide (b / 16 % 2 = 1) :: decide (b / 8 % 2 = 1) ::
      decide (b / 4 % 2 = 1) :: decide (b / 2 % 2 = 1) :: decide (b % 2 = 1) ::
      bytesToBits tl) = b :: tl
    show byteFromBits _ _ _ _ _ _ _ _ :: bitsToBytes (bytesToBits tl) = b :: tl
    rw [byteFromBits_bits b hb, ih (fun x hx => h x (by simp [hx]))]

theorem bytesToBits_bitsToBytes (l : List Bool) (h : l.length % 8 = 0) :
    bytesToBits (bitsToBytes l) = l := by
  induction l using bitsToBytes.induct with
  | case1 b7 b6 b5 b4 b3 b2 b1 b0 rest ih =>
    show byteBits (byteFromBits b7 b6 b5 b4 b3 b2 b1 b0) ++ bytesToBits (bitsToBytes rest) =
      b7 :: b6 :: b5 :: b4 :: b3 :: b2 :: b1 :: b0 :: rest
    rw [byteBits_byteFromBits, ih (by simp at h; omega)]
    rfl
  | case2 l hne =>
    rcases l with _ | ⟨a1, _ | ⟨a2, _ | ⟨a3, _ | ⟨a4, _ | ⟨a5, _ | ⟨a6, _ | ⟨a7, rest⟩⟩⟩⟩⟩⟩⟩
    · rfl
    · simp at h
    · simp at h
    · simp at h
    · simp at h
    · simp at h
    · simp at h
    · cases rest with
      | nil => simp at h
      | cons a8 rest => exact (hne a1 a2 a3 a4 a5 a6 a7 a8 rest rfl).elim

theorem bitsToBytes_length (l : List Bool) : (bitsToBytes l).length = l.length / 8 := by
  induction l using bitsToBytes.induct with
  | case1 b7 b6 b5 b4 b3 b2 b1 b0 rest ih =>
    show (byteFromBits b7 b6 b5 b4 b3 b2 b1 b0 :: bitsToBytes rest).length = _
    rw [List.length_cons, ih]
    simp
    omega
  | case2 l hne =>
    rcases l with _ | ⟨a1, _ | ⟨a2, _ | ⟨a3, _ | ⟨a4, _ | ⟨a5, _ | ⟨a6, _ | ⟨a7, rest⟩⟩⟩⟩⟩⟩⟩
    · rfl
    · simp [bitsToBytes]
    · simp [bitsToBytes]
    · simp [bitsToBytes]
    · simp [bitsToBytes]
    · simp [bitsToBytes]
    · simp [bitsToBytes]
    · cases rest with
      | nil => simp [bitsToBytes]
      | cons a8 rest => exact (hne a1 a2 a3 a4 a5 a6 a7 a8 rest rfl).elim

theorem bitsToBytes_lt256 (l : List Bool) : ∀ b ∈ bitsToBytes l, b < 256 := by
  induction l using bitsToBytes.induct with
  | case1 b7 b6 b5 b4 b3 b2 b1 b0 rest ih =>
    intro b hb
    rcases List.mem_cons.mp hb with hb | hb
    · exact hb ▸ byteFromBits_lt256 b7 b6 b5 b4 b3 b2 b1 b0
    · exact ih b hb
  | case2 l hne =>
    rcases l with _ | ⟨a1, _ | ⟨a2, _ | ⟨a3, _ | ⟨a4, _ | ⟨a5, _ | ⟨a6, _ | ⟨a7, rest⟩⟩⟩⟩⟩⟩⟩
    · simp [bitsToBytes]
    · simp [bitsToBytes]
    · simp [bitsToBytes]
    · simp [bitsToBytes]
    · simp [bitsToBytes]
    · simp [bitsToBytes]
    · simp [bitsToBytes]
    · cases rest with
      | nil => simp [bitsToBytes]
      | cons a8 rest => exact (hne a1 a2 a3 a4 a5 a6 a7 a8 rest rfl).elim


/-! ## Helper lemmas: ECB chunking -/

theorem chunks8_append8 (a1 a2 a3 a4 a5 a6 a7 a8 : Nat) (x r : List Nat)
    (hx : x = [a1, a2, a3, a4, a5, a6, a7, a8]) :
    chunks8 (x ++ r) = x :: chunks8 r := by
  subst hx
  rfl

theorem exists_eight_of_length (x : List Nat) (hx : x.length = 8) :
    ∃ a1 a2 a3 a4 a5 a6 a7 a8, x = [a1, a2, a3, a4, a5, a6, a7, a8] := by
  rcases x with _ | ⟨a1, _ | ⟨a2, _ | ⟨a3, _ | ⟨a4, _ | ⟨a5, _ | ⟨a6, _ | ⟨a7, _ | ⟨a8, rest⟩⟩⟩⟩⟩⟩⟩⟩ <;>
    simp_all

theorem des3EcbEncrypt_cons8 (key : List Nat) (a1 a2 a3 a4 a5 a6 a7 a8 : Nat)
    (rest : List Nat) :
    des3EcbEncrypt key (a1 :: a2 :: a3 :: a4 :: a5 :: a6 :: a7 :: a8 :: rest) =
      bitsToBytes (des3EncryptBlock (key.take 8) ((key.drop 8).take 8) ((key.drop 16).take 8)
        (bytesToBits [a1, a2, a3, a4, a5, a6, a7, a8])) ++ des3EcbEncrypt key rest := rfl

theorem des3Ecb_cancel (key bs : List Nat) (hlen : bs.length % 8 = 0)
    (hb : ∀ b ∈ bs, b < 256) :
    des3EcbDecrypt key (des3EcbEncrypt key bs) = bs := by
  induction bs using chunks8.induct with
  | case1 a1 a2 a3 a4 a5 a6 a7 a8 rest ih =>
    rw [des3EcbEncrypt_cons8]
    have hblk : (bytesToBits [a1, a2, a3, a4, a5, a6, a7, a8]).length = 64 := by
      rw [bytesToBits_length]; rfl
    have henc : (bitsToBytes (des3EncryptBlock (key.take 8) ((key.drop 8).take 8)
        ((key.drop 16).take 8) (bytesToBits [a1, a2, a3, a4, a5, a6, a7, a8]))).length = 8 := by
      rw [bitsToBytes_length, des3EncryptBlock_length]
    obtain ⟨x1, x2, x3, x4, x5, x6, x7, x8, hxeq⟩ := exists_eight_of_length _ henc
    unfold des3EcbDecrypt
    rw [chunks8_append8 x1 x2 x3 x4 x5 x6 x7 x8 _ _ hxeq, List.flatMap_cons]
    have h1 : bytesToBits (bitsToBytes (des3EncryptBlock (key.take 8) ((key.drop 8).take 8)
        ((key.drop 16).take 8) (bytesToBits [a1, a2, a3, a4, a5, a6, a7, a8]))) =
        des3EncryptBlock (key.take 8) ((key.drop 8).take 8) ((key.drop 16).take 8)
          (bytesToBits [a1, a2, a3, a4, a5, a6, a7, a8]) :=
      bytesToBits_bitsToBytes _ (by rw [des3EncryptBlock_length])
    rw [h1, des3Block_cancel _ _ _ _ hblk,
      bitsToBytes_bytesToBits [a1, a2, a3, a4, a5, a6, a7, a8]
        (by intro b hbm; exact hb b (by simp at hbm; rcases hbm with h|h|h|h|h|h|h|h <;> simp [h]))]
    have hrest : des3EcbDecrypt key (des3EcbEncrypt key rest) = rest :=
      ih (by simp at hlen; omega) (fun b hbm => hb b (by simp [hbm]))
    unfold des3EcbDecrypt at hrest
    rw [hrest]
    rfl
  | case2 l hne =>
    rcases l with _ | ⟨a1, _ | ⟨a2, _ | ⟨a3, _ | ⟨a4, _ | ⟨a5, _ | ⟨a6, _ | ⟨a7, rest⟩⟩⟩⟩⟩⟩⟩
    · rfl
    · simp at hlen
    · simp at hlen
    · simp at hlen
    · simp at hlen
    · simp at hlen
    · simp at hlen
    · cases rest with
      | nil => simp at hlen
      | cons a8 rest => exact (hne a1 a2 a3 a4 a5 a6 a7 a8 rest rfl).elim

theorem des3EcbEncrypt_length (key bs : List Nat) (hlen : bs.length % 8 = 0) :
    (des3EcbEncrypt key bs).length = bs.length := by
  induction bs using chunks8.induct with
  | case1 a1 a2 a3 a4 a5 a6 a7 a8 rest ih =>
    rw [des3EcbEncrypt_cons8, List.length_append, bitsToBytes_length,
      des3EncryptBlock_length, ih (by simp at hlen; omega)]
    simp
    omega
  | case2 l hne =>
    rcases l with _ | ⟨a1, _ | ⟨a2, _ | ⟨a3, _ | ⟨a4, _ | ⟨a5, _ | ⟨a6, _ | ⟨a7, rest⟩⟩⟩⟩⟩⟩⟩
    · rfl
    · simp at hlen
    · simp at hlen
    · simp at hlen
    · simp at hlen
    · simp at hlen
    · simp at hlen
    · cases rest with
      | nil => simp at hlen
      | cons a8 rest => exact (hne a1 a2 a3 a4 a5 a6 a7 a8 rest rfl).elim

theorem des3EcbEncrypt_lt256 (key bs : List Nat) :
    ∀ b ∈ des3EcbEncrypt key bs, b < 256 := by
  intro b hbm
  unfold des3EcbEncrypt at hbm
  rw [List.mem_flatMap] at hbm
  obtain ⟨blk, _, hbm⟩ := hbm
  exact bitsToBytes_lt256 _ b hbm


/-! ## Helper lemmas: PKCS#7 unpadding -/

theorem pkcs7Unpad_append_replicate (bs : List Nat) (p : Nat)
    (hp1 : 1 ≤ p) (hp8 : p ≤ 8) :
    pkcs7Unpad (bs ++ List.replicate p p) = .ok bs := by
  have hrep : List.replicate p p ≠ [] := by
    cases p with
    | zero => omega
    | succ k => simp [List.replicate_succ]
  have hlast : (bs ++ List.replicate p p).getLast? = some p := by
    rw [List.getLast?_append_of_ne_nil _ hrep, List.getLast?_replicate]
    rw [if_neg (by omega)]
  have hlen : (bs ++ List.replicate p p).length = bs.length + p := by
    simp
  unfold pkcs7Unpad
  rw [hlast]
  dsimp only
  have hsub : (bs ++ List.replicate p p).length - p = bs.length := by omega
  rw [if_pos]
  · rw [hsub]
    rw [List.take_left' rfl]
  · refine ⟨hp1, hp8, by omega, ?_⟩
    rw [hsub, List.drop_left' rfl]
    simp [List.all_eq_true, List.mem_replicate]


end XPay

namespace XPay

/-! ## Claims about the cipher output -/

theorem padded_length_mod8 (pt : String) :
    (utf8Encode (pkcs7PadStr pt).data).length % 8 = 0 := by
  rw [padBytes_eq pt, List.length_append, List.length_replicate]
  unfold padLenOf
  omega

/-- C3: round trip — decrypting the Base64-decoded output of
`encrypt_payload` with triple DES in ECB mode under the derived key, then
stripping the PKCS#7 padding, reproduces exactly the canonical JSON bytes
of the payload. -/
theorem c3_roundtrip :
    ∀ (v : PyVal) (secret pt : String) (key : List Nat) (ct : String),
      pyJsonDumps v = .ok pt → deriveKey secret = .ok key →
      encrypt_payload v secret = .ok ct →
      pkcs7Unpad (des3EcbDecrypt key (b64DecodeChars ct.data)) =
        .ok (utf8Encode pt.data) := by
  intro v secret pt key ct hv hk hct
  unfold encrypt_payload at hct
  rw [hv, hk] at hct
  dsimp only at hct
  by_cases h24 : key.length = 24
  · rw [if_pos h24] at hct
    injection hct with hct
    subst hct
    show pkcs7Unpad (des3EcbDecrypt key (b64DecodeChars (b64EncodeChars
      (des3EcbEncrypt key (utf8Encode (pkcs7PadStr pt).data))))) = _
    rw [b64_roundtrip _ (des3EcbEncrypt_lt256 key _),
        des3Ecb_cancel key _ (padded_length_mod8 pt) (utf8Encode_lt256 _),
        padBytes_eq pt]
    exact pkcs7Unpad_append_replicate _ _ (padLenOf_pos pt) (padLenOf_le pt)
  · rw [if_neg h24] at hct
    simp at hct

/-- Witness for C3: the empty payload under the dashboard-style secret. -/
theorem c3_witness :
    pkcs7Unpad (des3EcbDecrypt
      [97, 98, 49, 50, 99, 100, 51, 52, 101, 102, 53, 54,
       98, 102, 102, 49, 52, 57, 49, 48, 48, 56, 57, 57]
      (b64DecodeChars "8GkVtZV6VFg=".data)) =
      .ok (utf8Encode "\x7b\x7d".data) :=
  c3_roundtrip (.dict .nil) "XPSECK-ab12cd34ef56gh78ij90kl12-X" "\x7b\x7d"
    [97, 98, 49, 50, 99, 100, 51, 52, 101, 102, 53, 54,
     98, 102, 102, 49, 52, 57, 49, 48, 48, 56, 57, 57]
    "8GkVtZV6VFg=" rfl rfl rfl

/-- C8: the Base64-decoded output of `encrypt_payload` always has a byte
length that is a positive multiple of 8, equal to the length of the
padded plaintext. -/
theorem c8_ciphertext_length :
    ∀ (v : PyVal) (secret ct : String), encrypt_payload v secret = .ok ct →
      ∃ n : Nat, 0 < n ∧ (b64DecodeChars ct.data).length = 8 * n ∧
        ∃ pt, pyJsonDumps v = .ok pt ∧
          (b64DecodeChars ct.data).length =
            (utf8Encode (pkcs7PadStr pt).data).length := by
  intro v secret ct hct
  unfold encrypt_payload at hct
  cases hv : pyJsonDumps v with
  | error e => rw [hv] at hct; simp at hct
  | ok pt =>
    rw [hv] at hct
    cases hk : deriveKey secret with
    | error e => rw [hk] at hct; simp at hct
    | ok key =>
      rw [hk] at hct
      dsimp only at hct
      by_cases h24 : key.length = 24
      · rw [if_pos h24] at hct
        injection hct with hct
        subst hct
        have hdec : b64DecodeChars (b64EncodeChars
            (des3EcbEncrypt key (utf8Encode (pkcs7PadStr pt).data))) =
            des3EcbEncrypt key (utf8Encode (pkcs7PadStr pt).data) :=
          b64_roundtrip _ (des3EcbEncrypt_lt256 key _)
        have hlen : (des3EcbEncrypt key (utf8Encode (pkcs7PadStr pt).data)).length =
            (utf8Encode (pkcs7PadStr pt).data).length :=
          des3EcbEncrypt_length key _ (padded_length_mod8 pt)
        have hm8 := padded_length_mod8 pt
        have hpos : 1 ≤ (utf8Encode (pkcs7PadStr pt).data).length := by
          rw [padBytes_eq pt, List.length_append, List.length_replicate]
          have := padLenOf_pos pt
          omega
        refine ⟨(utf8Encode (pkcs7PadStr pt).data).length / 8, by omega, ?_, pt, rfl, ?_⟩
        · show (b64DecodeChars (b64EncodeChars _)).length = _
          rw [hdec, hlen]
          omega
        · show (b64DecodeChars (b64EncodeChars _)).length = _
          rw [hdec, hlen]
      · rw [if_neg h24] at hct
        exact Except.noConfusion hct

/-- Witness for C8: the empty payload under the dashboard-style secret. -/
theorem c8_witness :
    ∃ n : Nat, 0 < n ∧ (b64DecodeChars "8GkVtZV6VFg=".data).length = 8 * n ∧
      ∃ pt, pyJsonDumps (.dict .nil) = .ok pt ∧
        (b64DecodeChars "8GkVtZV6VFg=".data).length =
          (utf8Encode (pkcs7PadStr pt).data).length :=
  c8_ciphertext_length (.dict .nil) "XPSECK-ab12cd34ef56gh78ij90kl12-X"
    "8GkVtZV6VFg=" rfl

end XPay
